import Mathlib

/-!
# mwebserv: routing, middleware chain and terminal dispatcher

A shallow embedding of `src/mwebserv.go`.

* A Go `string` is modelled as the list of its characters (`Str`).  The path
  separator `/` and the parameter sigil `:` are ASCII, so the byte-wise
  `strings.Split`, the first-byte test `s[0] == ':'` and the slice `s[1:]`
  coincide with the character-wise operations used here.
* A Go `map[string]T` is modelled as an association list; ranging over the map
  visits the entries in the order of the list, so a statement proved for all
  lists covers every iteration order.
* A run-time panic (index out of range, call of a nil function, failed type
  assertion) is an explicit result: `none` for `matchRoute`, `Outcome.panic`
  for the handler chain.
-/

namespace Mwebserv

/-- A Go string, as its sequence of characters. -/
abbrev Str := List Char

/-! ## Library functions used by the source -/

/-- Go `strings.Split(s, "/")`: the pieces of `s` between separators; a string
without separator (the empty string included) yields one piece. -/
def split : Str → List Str
  | [] => [[]]
  | c :: cs =>
    if c = '/' then [] :: split cs
    else
      match split cs with
      | [] => [[c]]
      | s :: ss => (c :: s) :: ss

/-- Go `unicode.IsSpace`, the white space of `strings.TrimSpace`. -/
def isSpace (c : Char) : Bool :=
  (9 ≤ c.toNat && c.toNat ≤ 13) || c = ' '
    || c.toNat = 0x85 || c.toNat = 0xA0 || c.toNat = 0x1680
    || (0x2000 ≤ c.toNat && c.toNat ≤ 0x200A)
    || c.toNat = 0x2028 || c.toNat = 0x2029 || c.toNat = 0x202F
    || c.toNat = 0x205F || c.toNat = 0x3000

/-- Go `strings.TrimSpace`: leading and trailing white space removed. -/
def trimSpace (s : Str) : Str :=
  ((s.dropWhile isSpace).reverse.dropWhile isSpace).reverse

/-! ## Maps -/

/-- Go `m[k] = v` on a map kept as an association list: the old binding of `k`
is replaced. -/
def mapSet {β : Type} (m : List (Str × β)) (k : Str) (v : β) : List (Str × β) :=
  (k, v) :: m.filter (fun e => decide (e.1 ≠ k))

/-- Go `m[k]` with the presence flag: `none` when `k` is not a key. -/
def mapGet {β : Type} (m : List (Str × β)) (k : Str) : Option β :=
  (m.find? (fun e => decide (e.1 = k))).map Prod.snd

/-! ## Data model -/

/-- The observable actions of a request: operations on the response writer
`c.W`, calls to the file system / asset collaborators, and actions of user
code. -/
inductive Event where
  /-- An action performed by user code (a route handler or a middleware). -/
  | user (tag : Str)
  /-- The call `c.W.Header().Set(k, v)`. -/
  | setHeader (k v : Str)
  /-- The call `c.W.WriteHeader(status)`. -/
  | writeHeader (status : Nat)
  /-- The call `c.W.Write(body)`. -/
  | write (body : Str)
  /-- The call `os.Open(filename)`. -/
  | osOpen (filename : Str)
  /-- The call `http.ServeFile(c.W, c.R, filename)`. -/
  | serveFile (filename : Str)
  /-- The call `m.asset(filename)`. -/
  | asset (filename : Str)
  deriving DecidableEq

/-- One statement of a user-supplied handler: an observable action, or the
call `c.Next()`. -/
inductive Stmt where
  | act (e : Event)
  | next
  deriving DecidableEq

/-- The type `MHandler func(*MContext)`: a user-supplied function, given by the
sequence of its actions and `Next` calls, or the bound method
`m.defaultHandler` that `makeHandlerChain` appends. -/
inductive MHandler where
  | user (body : List Stmt)
  | defaultHandler
  deriving DecidableEq

/-- The fields of `*http.Request` the source reads. -/
structure Request where
  /-- The field `R.Method`. -/
  Method : Str
  /-- The field `R.URL.Path`. -/
  Path : Str
  /-- The method `R.Header.Get`: the first value of the header of that name,
  the empty string when there is none. -/
  Header : Str → Str
  /-- The field `R.RemoteAddr`. -/
  RemoteAddr : Str

/-- The struct `MWeb` (the listener and the template set are left out). -/
structure MWeb where
  post : List (Str × MHandler)
  get : List (Str × MHandler)
  middleware : List MHandler
  NotFound : MHandler
  static : Str
  staticBindata : Str
  /-- The field `m.asset`, nil until `SetAsset` is called; `asset f = none` is
  the error result of the lookup. -/
  asset : Option (Str → Option Str)

/-- The struct `MContext`.  `trace` stands for the response writer `W`: the
log of what has been done so far. -/
structure MContext where
  trace : List Event
  R : Request
  Data : List (Str × Str)
  V : List (Str × Str)
  server : MWeb
  handlerChain : Nat
  handler : List MHandler

/-- The collaborators outside the repository: the file system and the Go
standard library functions on file names. -/
structure Sys where
  /-- Whether `os.Open(name)` succeeds. -/
  canOpen : Str → Bool
  /-- Go `filepath.Join(a, b)`. -/
  join : Str → Str → Str
  /-- Go `filepath.Join(a)`. -/
  clean : Str → Str
  /-- Go `filepath.Ext`. -/
  ext : Str → Str
  /-- Go `mime.TypeByExtension`. -/
  typeByExtension : Str → Str
  /-- Go `net.SplitHostPort`, `none` when it returns an error. -/
  splitHostPort : Str → Option (Str × Str)

/-- Result of running handler code: a context, a run-time panic, or the
recursion budget of the model used up. -/
inductive Outcome (α : Type) where
  | ok (a : α)
  | panic
  | outOfFuel

/-! ## Path matcher -/

/-- The function `normPath`: one trailing empty segment is dropped from a list
of more than one segment. -/
def normPath (p : List Str) : List Str :=
  if p.length > 1 then
    if p.getLast? = some [] then p.dropLast else p
  else p

/-- The segment walk of `matchRoute` (the loop `for kk := range path`), run on
the request segments and the candidate's segments side by side.  The result is
`none` when `kpath[kk][0]` is evaluated on an empty segment (index out of
range); otherwise the final value of `pathMatch` and the parameter map. -/
def walk : List Str → List Str → List (Str × Str) → Option (Bool × List (Str × Str))
  | [], _, V => some (true, V)
  | _ :: _, [], _ => none
  | p :: ps, k :: ks, V =>
    if p = [] ∧ k = [] then walk ps ks V
    else
      match k with
      | [] => none
      | c :: name =>
        if c = ':' then walk ps ks (mapSet V name p)
        else if p = k then walk ps ks V
        else some (false, V)

/-- The loop `for k := range route` of `matchRoute`, over the keys in
iteration order: the returned key (`""` when no candidate matched) and the
parameter map, or `none` when the walk of a candidate panics. -/
def matchLoop (path : List Str) : List Str → List (Str × Str) → Option (Str × List (Str × Str))
  | [], V => some ([], V)
  | k :: ks, V =>
    if (normPath (split k)).length = path.length then
      match walk path (normPath (split k)) V with
      | none => none
      | some (true, V1) => some (k, V1)
      | some (false, V1) => matchLoop path ks V1
    else matchLoop path ks V

/-- The function `matchRoute`: the returned route and the context with its new
parameter map. -/
def matchRoute (route : List (Str × MHandler)) (c : MContext) : Option (Str × MContext) :=
  (matchLoop (normPath (split c.R.Path)) (route.map Prod.fst) []).map
    (fun r => (r.1, { c with V := r.2 }))

/-! ## Registration -/

/-- The function `notFound`, the default value of `m.NotFound`. -/
def notFound : MHandler :=
  .user [.act (.setHeader "Content-Type".toList "text/plain".toList),
         .act (.writeHeader 404),
         .act (.write "Error 404 : Page Not Found!!!".toList)]

/-- The constructor `New`. -/
def New : MWeb :=
  { post := [], get := [], middleware := [], NotFound := notFound,
    static := [], staticBindata := [], asset := none }

/-- The method `Get`. -/
def MWeb.Get (m : MWeb) (r : Str) (f : MHandler) : MWeb := { m with get := mapSet m.get r f }

/-- The method `Post`. -/
def MWeb.Post (m : MWeb) (r : Str) (f : MHandler) : MWeb := { m with post := mapSet m.post r f }

/-- The method `Use`. -/
def MWeb.Use (m : MWeb) (f : MHandler) : MWeb := { m with middleware := m.middleware ++ [f] }

/-- The method `Static`. -/
def MWeb.Static (m : MWeb) (dir : Str) : MWeb := { m with static := dir }

/-- The method `StaticBindata`. -/
def MWeb.StaticBindata (m : MWeb) (dir : Str) : MWeb := { m with staticBindata := dir }

/-- The method `SetAsset`. -/
def MWeb.SetAsset (m : MWeb) (asset : Str → Option Str) : MWeb := { m with asset := some asset }

/-! ## Static serving -/

/-- Record an action in the log of the context. -/
def MContext.emit (c : MContext) (e : Event) : MContext := { c with trace := c.trace ++ [e] }

/-- The method `serveStatic`; the flag is `err == nil`. -/
def serveStatic (sys : Sys) (m : MWeb) (fname : Str) (c : MContext) : Bool × MContext :=
  let filename := if fname = [] then sys.join m.static c.R.Path else sys.join m.static fname
  let c1 := c.emit (.osOpen filename)
  if sys.canOpen filename then (true, c1.emit (.serveFile filename))
  else
    let filename2 := sys.join filename "index.html".toList
    let c2 := c1.emit (.osOpen filename2)
    if sys.canOpen filename2 then (true, c2.emit (.serveFile filename2))
    else (false, c2)

/-- The tail of `serveStaticBindata`: content type, status 200 and the data. -/
def writeAsset (sys : Sys) (filename data : Str) (c : MContext) : MContext :=
  let ctype := sys.typeByExtension (sys.ext filename)
  let ctype := if ctype = [] then "application/octet-stream".toList else ctype
  ((c.emit (.setHeader "Content-Type".toList ctype)).emit (.writeHeader 200)).emit (.write data)

/-- The method `serveStaticBindata`; the flag is `err == nil`, and calling the
nil `m.asset` panics. -/
def serveStaticBindata (sys : Sys) (m : MWeb) (fname : Str) (c : MContext) :
    Outcome (Bool × MContext) :=
  let filename :=
    if fname = [] then sys.join m.staticBindata c.R.Path else sys.join m.staticBindata fname
  match m.asset with
  | none => .panic
  | some asset =>
    let c1 := c.emit (.asset filename)
    match asset filename with
    | some data => .ok (true, writeAsset sys filename data c1)
    | none =>
      let filename2 := sys.join filename "index.html".toList
      let c2 := c1.emit (.asset (sys.clean filename2))
      match asset (sys.clean filename2) with
      | some data => .ok (true, writeAsset sys filename2 data c2)
      | none => .ok (false, c2)

/-! ## Middleware chain and terminal dispatcher -/

/-- The method `Next`, with the call of a handler passed as `invoke`. -/
def Next (invoke : MHandler → MContext → Outcome MContext) (c : MContext) : Outcome MContext :=
  let c1 := { c with handlerChain := c.handlerChain + 1 }
  match c1.handler[c1.handlerChain]? with
  | none => .panic
  | some h =>
    match invoke h c1 with
    | .ok c2 => .ok { c2 with handlerChain := c2.handlerChain - 1 }
    | .panic => .panic
    | .outOfFuel => .outOfFuel

/-- Run the body of a user-supplied handler. -/
def runBody (invoke : MHandler → MContext → Outcome MContext) :
    List Stmt → MContext → Outcome MContext
  | [], c => .ok c
  | .act e :: rest, c => runBody invoke rest (c.emit e)
  | .next :: rest, c =>
    match Next invoke c with
    | .ok c1 => runBody invoke rest c1
    | .panic => .panic
    | .outOfFuel => .outOfFuel

/-- The method `defaultHandler`, with the call of a handler passed as
`invoke`. -/
def defaultHandler (invoke : MHandler → MContext → Outcome MContext) (sys : Sys) (m : MWeb)
    (c : MContext) : Outcome MContext :=
  match mapGet c.Data "route".toList with
  | none => .panic
  | some route =>
    if c.R.Method = "GET".toList then
      if route ≠ [] then
        match mapGet m.get route with
        | none => .panic
        | some h => invoke h c
      else
        let s := if m.static ≠ [] then serveStatic sys m [] c else (false, c)
        if s.1 then .ok s.2
        else
          let b :=
            if m.staticBindata ≠ [] then serveStaticBindata sys m [] s.2 else .ok (false, s.2)
          match b with
          | .ok (true, c2) => .ok c2
          | .ok (false, c2) => invoke m.NotFound c2
          | .panic => .panic
          | .outOfFuel => .outOfFuel
    else if c.R.Method = "POST".toList then
      if route = [] then invoke m.NotFound c
      else
        match mapGet m.post route with
        | none => .panic
        | some h => invoke h c
    else .ok c

/-- Call of a handler value.  `fuel` bounds the depth of nested handler
calls. -/
def call (sys : Sys) : Nat → MHandler → MContext → Outcome MContext
  | 0, _, _ => .outOfFuel
  | fuel + 1, .user body, c => runBody (call sys fuel) body c
  | fuel + 1, .defaultHandler, c => defaultHandler (call sys fuel) sys c.server c

/-- The method `makeHandlerChain`. -/
def makeHandlerChain (sys : Sys) (fuel : Nat) (c : MContext) (route : Str) : Outcome MContext :=
  let c1 := { c with handler := (c.handler ++ c.server.middleware) ++ [MHandler.defaultHandler],
                     Data := mapSet c.Data "route".toList route }
  match c1.handler[0]? with
  | none => .panic
  | some h => call sys fuel h c1

/-- The method `ServeHTTP` (the query string is not modelled). -/
def ServeHTTP (sys : Sys) (fuel : Nat) (m : MWeb) (r : Request) : Outcome MContext :=
  let context : MContext :=
    { trace := [], R := r, Data := [], V := [], server := m, handlerChain := 0, handler := [] }
  if r.Method = "GET".toList then
    match matchRoute m.get context with
    | none => .panic
    | some (route, c1) => makeHandlerChain sys fuel c1 route
  else if r.Method = "POST".toList then
    match matchRoute m.post context with
    | none => .panic
    | some (route, c1) => makeHandlerChain sys fuel c1 route
  else .ok context

/-! ## Client address -/

/-- The method `RemoteAddr`. -/
def RemoteAddr (sys : Sys) (c : MContext) : Str :=
  let xforward := c.R.Header "X-Forwarded-For".toList
  if xforward ≠ [] then trimSpace xforward
  else
    let xforward := c.R.Header "X-Real-IP".toList
    if xforward ≠ [] then trimSpace xforward
    else
      let addr := trimSpace c.R.RemoteAddr
      if addr ≠ [] then
        match sys.splitHostPort addr with
        | some (ip, _) => ip
        | none => addr
      else addr

/-! ## Shapes of handlers used to state the properties -/

/-- Record a sequence of actions in the log of the context. -/
def MContext.emits (c : MContext) (evs : List Event) : MContext :=
  { c with trace := c.trace ++ evs }

/-- A handler that performs `evs` and never calls `Next`. -/
def plain (evs : List Event) : MHandler := .user (evs.map Stmt.act)

/-- A middleware that calls `Next` exactly once: it performs `pre`, calls
`c.Next()`, then performs `post`. -/
def around (pre post : List Event) : MHandler :=
  .user (pre.map Stmt.act ++ Stmt.next :: post.map Stmt.act)

/-- The pre-advance actions of a list of middleware, first registered first. -/
def preActions : List (List Event × List Event) → List Event
  | [] => []
  | p :: ps => p.1 ++ preActions ps

/-- The post-advance actions of a list of middleware, last registered first. -/
def postActions : List (List Event × List Event) → List Event
  | [] => []
  | p :: ps => postActions ps ++ p.2

/-! ## The matching rule in the words of the specification -/

/-- A pattern segment pairs with a request segment when it is a parameter
segment (it starts with `:`) or the two are literally equal. -/
def segMatches (p k : Str) : Bool := k.head? = some ':' || decide (k = p)

/-- Every pattern segment pairs with the request segment at its index. -/
def segsMatch (path kpath : List Str) : Bool :=
  (List.zip path kpath).all (fun q => segMatches q.1 q.2)

/-- What the caller of `matchRoute` observes: whether a route was returned
(the dispatcher tests `route != ""`) and the parameter bindings. -/
def observed (r : Option (Str × MContext)) : Option (Bool × List (Str × Str)) :=
  r.map (fun x => (decide (x.1 ≠ []), x.2.V))

/-! ## Names used to state the fallback order -/

/-- The file `serveStatic("", c)` opens first. -/
def staticFile (sys : Sys) (c : MContext) : Str := sys.join c.server.static c.R.Path

/-- The file `serveStatic("", c)` opens when the first cannot be opened. -/
def staticIndex (sys : Sys) (c : MContext) : Str :=
  sys.join (staticFile sys c) "index.html".toList

/-- The asset `serveStaticBindata("", c)` looks up first. -/
def assetFile (sys : Sys) (c : MContext) : Str := sys.join c.server.staticBindata c.R.Path

/-- The asset `serveStaticBindata("", c)` looks up when the first is unknown. -/
def assetIndex (sys : Sys) (c : MContext) : Str :=
  sys.join (assetFile sys c) "index.html".toList

/-- The actions of `serveStaticBindata` once the data of `filename` is found. -/
def assetResponse (sys : Sys) (filename data : Str) : List Event :=
  [.setHeader "Content-Type".toList
      (if sys.typeByExtension (sys.ext filename) = [] then "application/octet-stream".toList
       else sys.typeByExtension (sys.ext filename)),
    .writeHeader 200, .write data]

/-! ## Sample inputs -/

/-- A system with an empty file system and string concatenation for paths. -/
def sampleSys : Sys :=
  { canOpen := fun _ => false, join := fun a b => a ++ b, clean := fun a => a,
    ext := fun _ => [], typeByExtension := fun _ => [], splitHostPort := fun _ => none }

/-- A GET request for the given path. -/
def sampleGet (path : Str) : Request :=
  { Method := "GET".toList, Path := path, Header := fun _ => [], RemoteAddr := [] }

/-- The context `ServeHTTP` creates for a request. -/
def freshContext (m : MWeb) (r : Request) : MContext :=
  { trace := [], R := r, Data := [], V := [], server := m, handlerChain := 0, handler := [] }

/-- A user action with a one-word tag. -/
def say (tag : String) : Event := .user tag.toList

/-- A server with the route `/` and two middleware that call `Next` once. -/
def sampleServer : MWeb :=
  ((New.Get "/".toList (plain [say "H"])).Use (around [say "pre1"] [say "post1"])).Use
    (around [say "pre2"] [say "post2"])

/-- A server whose second middleware returns without calling `Next`. -/
def sampleHalting : MWeb :=
  (((New.Get "/".toList (plain [say "H"])).Use (around [say "pre1"] [say "post1"])).Use
    (plain [say "stop"])).Use (around [say "pre3"] [say "post3"])

/-- A server with a directory static root and an asset static root whose
asset reader knows no file. -/
def sampleStatic : MWeb :=
  ((New.Static "www".toList).StaticBindata "assets".toList).SetAsset (fun _ => none)

/-- A request that carries both forwarding headers and a connection address. -/
def sampleForwarded : Request :=
  { Method := "GET".toList, Path := "/".toList,
    Header := fun k =>
      if k = "X-Forwarded-For".toList then " 203.0.113.7 ".toList
      else if k = "X-Real-IP".toList then "198.51.100.2".toList
      else [],
    RemoteAddr := "192.0.2.1:5000".toList }

/-! ## Maps: lookup after assignment -/

theorem mapGet_mapSet_same {β : Type} (m : List (Str × β)) (k : Str) (v : β) :
    mapGet (mapSet m k v) k = some v := by
  simp [mapGet, mapSet]

theorem find_filter_other {β : Type} (k k1 : Str) (h : k1 ≠ k) (m : List (Str × β)) :
    (m.filter (fun e => decide (e.1 ≠ k))).find? (fun e => decide (e.1 = k1)) =
      m.find? (fun e => decide (e.1 = k1)) := by
  induction m with
  | nil => rfl
  | cons e es ih =>
    by_cases he : e.1 = k
    · have h1 : ¬ e.1 = k1 := fun e1 => h (e1.symm.trans he)
      have hf : (e :: es).filter (fun e => decide (e.1 ≠ k)) =
          es.filter (fun e => decide (e.1 ≠ k)) := by
        simp [List.filter_cons, he]
      have hg : (e :: es).find? (fun e => decide (e.1 = k1)) =
          es.find? (fun e => decide (e.1 = k1)) := by
        simp [List.find?_cons, h1]
      rw [hf, hg]
      exact ih
    · have hf : (e :: es).filter (fun e => decide (e.1 ≠ k)) =
          e :: es.filter (fun e => decide (e.1 ≠ k)) := by
        simp [List.filter_cons, he]
      rw [hf, List.find?_cons, List.find?_cons, ih]

theorem mapGet_mapSet_other {β : Type} (m : List (Str × β)) (k k1 : Str) (v : β)
    (h : k1 ≠ k) : mapGet (mapSet m k v) k1 = mapGet m k1 := by
  have hk : ¬ k = k1 := fun e => h e.symm
  unfold mapGet mapSet
  rw [List.find?_cons]
  simp only [hk, decide_False]
  rw [find_filter_other k k1 h m]

/-! ## The segment walk -/

/-- A walk leaves the binding of a name alone when no segment of the candidate
is the parameter of that name. -/
theorem walk_keeps (n : Str) :
    ∀ (path kpath : List Str) (V V1 : List (Str × Str)) (b : Bool),
      walk path kpath V = some (b, V1) →
      (∀ j : Nat, kpath[j]? ≠ some (':' :: n)) →
      mapGet V1 n = mapGet V n := by
  intro path
  induction path with
  | nil =>
    intro kpath V V1 b h _
    simp [walk] at h
    rw [h.2]
  | cons p ps ih =>
    intro kpath V V1 b h hn
    cases kpath with
    | nil => simp [walk] at h
    | cons k ks =>
      have hn1 : ∀ j : Nat, ks[j]? ≠ some (':' :: n) := fun j => by
        have := hn (j + 1)
        simpa using this
      have hk : k ≠ ':' :: n := by
        have := hn 0
        simpa using this
      simp only [walk] at h
      split at h
      · exact ih ks V V1 b h hn1
      · cases k with
        | nil => simp at h
        | cons c name =>
          simp only at h
          split at h
          · rename_i hc
            subst hc
            have hname : n ≠ name := fun e => hk (by rw [e])
            rw [ih ks _ V1 b h hn1, mapGet_mapSet_other _ _ _ _ hname]
          · split at h
            · exact ih ks V V1 b h hn1
            · simp at h
              rw [h.2]

/-- A completed walk binds each parameter name to the request segment at the
last index where the candidate has that parameter. -/
theorem walk_binds (n : Str) :
    ∀ (path kpath : List Str) (V V1 : List (Str × Str)) (i : Nat),
      walk path kpath V = some (true, V1) →
      kpath[i]? = some (':' :: n) →
      (∀ j : Nat, i < j → kpath[j]? ≠ some (':' :: n)) →
      i < path.length →
      mapGet V1 n = path[i]? := by
  intro path
  induction path with
  | nil =>
    intro kpath V V1 i _ _ _ hi
    simp at hi
  | cons p ps ih =>
    intro kpath V V1 i h hi hlast hlen
    cases kpath with
    | nil => simp at hi
    | cons k ks =>
      cases i with
      | zero =>
        simp at hi
        subst hi
        have hn1 : ∀ j : Nat, ks[j]? ≠ some (':' :: n) := fun j => by
          have := hlast (j + 1) (Nat.succ_pos j)
          simpa using this
        simp only [walk] at h
        simp at h
        rw [walk_keeps n ps ks _ V1 true h hn1, mapGet_mapSet_same]
        simp
      | succ i =>
        have hi1 : ks[i]? = some (':' :: n) := by simpa using hi
        have hlast1 : ∀ j : Nat, i < j → ks[j]? ≠ some (':' :: n) := fun j hj => by
          have := hlast (j + 1) (Nat.succ_lt_succ hj)
          simpa using this
        have hlen1 : i < ps.length := by simpa using hlen
        have goal : ∀ W, walk ps ks W = some (true, V1) → mapGet V1 n = (p :: ps)[i + 1]? :=
          fun W hW => by
            rw [ih ks W V1 i hW hi1 hlast1 hlen1]
            simp
        simp only [walk] at h
        split at h
        · exact goal _ h
        · cases k with
          | nil => simp at h
          | cons c name =>
            simp only at h
            split at h
            · exact goal _ h
            · split at h
              · exact goal _ h
              · simp at h

/-- What `matchLoop` returns is the unmatched value, or a key whose walk
completed. -/
theorem matchLoop_some (path : List Str) :
    ∀ (ks : List Str) (V V1 : List (Str × Str)) (P : Str),
      matchLoop path ks V = some (P, V1) →
      P = [] ∨
      (P ∈ ks ∧ (normPath (split P)).length = path.length ∧
        ∃ W, walk path (normPath (split P)) W = some (true, V1)) := by
  intro ks
  induction ks with
  | nil =>
    intro V V1 P h
    simp [matchLoop] at h
    exact Or.inl h.1
  | cons k ks ih =>
    intro V V1 P h
    rw [matchLoop] at h
    split at h
    · rename_i hlen
      split at h
      · simp at h
      · rename_i W hw
        simp at h
        obtain ⟨rfl, rfl⟩ := h
        exact Or.inr ⟨by simp, hlen, V, hw⟩
      · rename_i W hw
        rcases ih W V1 P h with h1 | ⟨hm, h2⟩
        · exact Or.inl h1
        · exact Or.inr ⟨by simp [hm], h2⟩
    · rcases ih V V1 P h with h1 | ⟨hm, h2⟩
      · exact Or.inl h1
      · exact Or.inr ⟨by simp [hm], h2⟩

/-! ## Parameter extraction -/

/-- C5. Parameter extraction: whenever `matchRoute` returns a pattern `P`, for
whatever route table, iteration order and request path, each parameter name
`n` of `P` is bound in `V` to the request segment at the index of the last
segment `:n` of `P`; and the pattern `/users/:id` matched against `/users/42`
is returned with `V["id"] = "42"`. -/
theorem matchRoute_binds_params :
    (∀ (route : List (Str × MHandler)) (c c1 : MContext) (P n : Str) (i : Nat),
      matchRoute route c = some (P, c1) →
      (normPath (split P))[i]? = some (':' :: n) →
      (∀ j : Nat, i < j → (normPath (split P))[j]? ≠ some (':' :: n)) →
      i < (normPath (split c.R.Path)).length ∧
        mapGet c1.V n = (normPath (split c.R.Path))[i]?) ∧
    (∀ (h : MHandler) (c : MContext), c.R.Path = "/users/42".toList →
      ∃ c1, matchRoute [("/users/:id".toList, h)] c = some ("/users/:id".toList, c1) ∧
        mapGet c1.V "id".toList = some "42".toList) := by
  constructor
  · intro route c c1 P n i h hi hlast
    unfold matchRoute at h
    cases hm : matchLoop (normPath (split c.R.Path)) (route.map Prod.fst) [] with
    | none => simp [hm] at h
    | some r =>
      obtain ⟨k, V1⟩ := r
      simp [hm] at h
      obtain ⟨hk, hc⟩ := h
      subst hk
      subst hc
      rcases matchLoop_some _ _ _ _ _ hm with h0 | ⟨_, hlen, W, hw⟩
      · subst h0
        exfalso
        revert hi
        cases i <;> simp [split, normPath]
      · have hi1 : i < (normPath (split c.R.Path)).length := by
          rw [← hlen]
          rcases Nat.lt_or_ge i (normPath (split k)).length with hlt | hge
          · exact hlt
          · rw [List.getElem?_eq_none hge] at hi
            cases hi
        exact ⟨hi1, walk_binds n _ _ W V1 i hw hi hlast hi1⟩
  · intro h c hp
    refine ⟨{ c with V := [("id".toList, "42".toList)] }, ?_, ?_⟩
    swap
    · show mapGet [("id".toList, "42".toList)] "id".toList = some "42".toList
      decide
    unfold matchRoute
    rw [hp]
    rfl

/-- The route `/users/:id` against the request path `/users/42`. -/
theorem matchRoute_binds_params_witness :
    2 < (normPath (split "/users/42".toList)).length ∧
      mapGet [("id".toList, "42".toList)] "id".toList =
        (normPath (split "/users/42".toList))[2]? :=
  matchRoute_binds_params.1 [("/users/:id".toList, notFound)]
    { trace := [], R := sampleGet "/users/42".toList, Data := [], V := [],
      server := New, handlerChain := 0, handler := [] }
    { trace := [], R := sampleGet "/users/42".toList, Data := [],
      V := [("id".toList, "42".toList)], server := New, handlerChain := 0, handler := [] }
    "/users/:id".toList "id".toList 2 rfl (by decide)
    (fun j hj => by
      have h3 : (normPath (split "/users/:id".toList)).length ≤ j := by
        have : (normPath (split "/users/:id".toList)).length = 3 := by decide
        omega
      rw [List.getElem?_eq_none h3]
      simp)

/-! ## Running handler bodies -/

theorem runBody_acts (invoke : MHandler → MContext → Outcome MContext) :
    ∀ (evs : List Event) (c : MContext),
      runBody invoke (evs.map Stmt.act) c = .ok (c.emits evs) := by
  intro evs
  induction evs with
  | nil =>
    intro c
    simp [runBody, MContext.emits]
  | cons e es ih =>
    intro c
    simp [runBody, ih, MContext.emits, MContext.emit]

theorem runBody_append (invoke : MHandler → MContext → Outcome MContext) :
    ∀ (a b : List Stmt) (c : MContext),
      runBody invoke (a ++ b) c =
        match runBody invoke a c with
        | .ok c1 => runBody invoke b c1
        | .panic => .panic
        | .outOfFuel => .outOfFuel := by
  intro a
  induction a with
  | nil =>
    intro b c
    simp [runBody]
  | cons s ss ih =>
    intro b c
    cases s with
    | act e => simp [runBody, ih]
    | next =>
      simp only [List.cons_append, runBody]
      cases Next invoke c with
      | ok c1 => simp [ih]
      | panic => rfl
      | outOfFuel => rfl

theorem call_plain (sys : Sys) (fuel : Nat) (evs : List Event) (c : MContext) :
    call sys (fuel + 1) (plain evs) c = .ok (c.emits evs) := by
  simp [call, plain, runBody_acts]

/-! ## More fuel never changes a result -/

theorem Next_mono (inv1 inv2 : MHandler → MContext → Outcome MContext)
    (hinv : ∀ h c c1, inv1 h c = .ok c1 → inv2 h c = .ok c1) (c c1 : MContext)
    (h : Next inv1 c = .ok c1) : Next inv2 c = .ok c1 := by
  cases hget : c.handler[c.handlerChain + 1]? with
  | none => simp [Next, hget] at h
  | some hd =>
    simp only [Next, hget] at h ⊢
    cases h1 : inv1 hd { c with handlerChain := c.handlerChain + 1 } with
    | ok c2 =>
      rw [h1] at h
      rw [hinv _ _ _ h1]
      exact h
    | panic => rw [h1] at h; cases h
    | outOfFuel => rw [h1] at h; cases h

theorem runBody_mono (inv1 inv2 : MHandler → MContext → Outcome MContext)
    (hinv : ∀ h c c1, inv1 h c = .ok c1 → inv2 h c = .ok c1) :
    ∀ (body : List Stmt) (c c1 : MContext),
      runBody inv1 body c = .ok c1 → runBody inv2 body c = .ok c1 := by
  intro body
  induction body with
  | nil =>
    intro c c1 h
    simpa [runBody] using h
  | cons s ss ih =>
    intro c c1 h
    cases s with
    | act e =>
      simp only [runBody] at h ⊢
      exact ih _ _ h
    | next =>
      simp only [runBody] at h ⊢
      cases h1 : Next inv1 c with
      | ok c2 =>
        rw [h1] at h
        rw [Next_mono inv1 inv2 hinv c c2 h1]
        exact ih _ _ h
      | panic => rw [h1] at h; cases h
      | outOfFuel => rw [h1] at h; cases h

theorem defaultHandler_mono (inv1 inv2 : MHandler → MContext → Outcome MContext)
    (hinv : ∀ h c c1, inv1 h c = .ok c1 → inv2 h c = .ok c1) (sys : Sys) (m : MWeb)
    (c c1 : MContext) (h : defaultHandler inv1 sys m c = .ok c1) :
    defaultHandler inv2 sys m c = .ok c1 := by
  revert h
  simp only [defaultHandler]
  repeat' split
  all_goals first
    | exact id
    | exact hinv _ _ _

theorem call_succ (sys : Sys) :
    ∀ (fuel : Nat) (h : MHandler) (c c1 : MContext),
      call sys fuel h c = .ok c1 → call sys (fuel + 1) h c = .ok c1 := by
  intro fuel
  induction fuel with
  | zero =>
    intro h c c1 hc
    simp [call] at hc
  | succ f ih =>
    intro h c c1 hc
    cases h with
    | user body =>
      simp only [call] at hc ⊢
      exact runBody_mono _ _ ih body c c1 hc
    | defaultHandler =>
      simp only [call] at hc ⊢
      exact defaultHandler_mono _ _ ih sys _ c c1 hc

/-- A call that returns with some fuel returns the same context with any
larger fuel. -/
theorem call_mono (sys : Sys) (fuel fuel1 : Nat) (hle : fuel ≤ fuel1) (h : MHandler)
    (c c1 : MContext) (hc : call sys fuel h c = .ok c1) : call sys fuel1 h c = .ok c1 := by
  induction hle with
  | refl => exact hc
  | step _ ih => exact call_succ sys _ h c c1 ih

/-! ## The chain of middleware -/

theorem getElem?_front {α : Type} (front : List α) (x : α) (rest : List α) :
    (front ++ x :: rest)[front.length]? = some x := by
  induction front with
  | nil => simp
  | cons a as ih => simpa using ih

/-- The handler at the cursor, when the handlers from the cursor on are
middleware that call `Next` once, followed by a handler `hK` that returns
after the actions `evK` without moving the cursor: the pre-advance actions run
in order, then `evK`, then the post-advance actions in reverse order, and the
cursor is restored. -/
theorem chain_run (sys : Sys) (R : Request) (D V : List (Str × Str)) (m : MWeb)
    (hK : MHandler) (rest : List MHandler) (evK : List Event) (fuelK : Nat) :
    ∀ (ms : List (List Event × List Event)) (front : List MHandler) (t : List Event)
      (hs : List MHandler),
      hs = front ++ (ms.map (fun p => around p.1 p.2) ++ hK :: rest) →
      call sys fuelK hK ⟨t ++ preActions ms, R, D, V, m, front.length + ms.length, hs⟩ =
        .ok ⟨t ++ preActions ms ++ evK, R, D, V, m, front.length + ms.length, hs⟩ →
      ∃ h, hs[front.length]? = some h ∧
        call sys (ms.length + fuelK) h ⟨t, R, D, V, m, front.length, hs⟩ =
          .ok ⟨t ++ preActions ms ++ evK ++ postActions ms, R, D, V, m, front.length, hs⟩ := by
  intro ms
  induction ms with
  | nil =>
    intro front t hs hhs hK1
    refine ⟨hK, ?_, ?_⟩
    · rw [hhs]
      exact getElem?_front front hK rest
    · simpa [preActions, postActions] using hK1
  | cons p ps ih =>
    intro front t hs hhs hK1
    refine ⟨around p.1 p.2, ?_, ?_⟩
    · rw [hhs]
      exact getElem?_front front _ _
    · have hhs1 : hs = (front ++ [around p.1 p.2]) ++
          (ps.map (fun p => around p.1 p.2) ++ hK :: rest) := by
        rw [hhs]
        simp
      have hK2 : call sys fuelK hK
          ⟨(t ++ p.1) ++ preActions ps, R, D, V, m, (front ++ [around p.1 p.2]).length + ps.length,
            hs⟩ =
          .ok ⟨(t ++ p.1) ++ preActions ps ++ evK, R, D, V, m,
            (front ++ [around p.1 p.2]).length + ps.length, hs⟩ := by
        have e1 : (front ++ [around p.1 p.2]).length + ps.length =
            front.length + (p :: ps).length := by
          simp
          omega
        rw [e1]
        simpa [preActions, List.append_assoc] using hK1
      obtain ⟨h1, hget, hrun⟩ := ih (front ++ [around p.1 p.2]) (t ++ p.1) hs hhs1 hK2
      have hlen : (front ++ [around p.1 p.2]).length = front.length + 1 := by simp
      rw [hlen] at hget hrun
      have hfuel : (p :: ps).length + fuelK = (ps.length + fuelK) + 1 := by
        simp
        omega
      rw [hfuel]
      simp only [call, around, runBody_append, runBody_acts, runBody, Next, MContext.emits,
        hget, hrun]
      simp [preActions, postActions, List.append_assoc]

/-- C2. Middleware ordering: with the middleware `M1..Mn` (n >= 0) registered
in that order, each calling `Next` exactly once between its pre-advance and
post-advance actions, and a terminal dispatcher that returns after the actions
`evH` without calling `Next`, the chain started by `makeHandlerChain` returns
having performed pre(M1), ..., pre(Mn), `evH`, post(Mn), ..., post(M1) in that
order, each once, with the cursor `handlerChain` back at 0. -/
theorem makeHandlerChain_order (sys : Sys) (c : MContext) (route : Str)
    (ms : List (List Event × List Event)) (evH : List Event) (fuelH : Nat)
    (hh : c.handler = []) (h0 : c.handlerChain = 0)
    (hmw : c.server.middleware = ms.map (fun p => around p.1 p.2))
    (hH : call sys fuelH MHandler.defaultHandler
        ⟨c.trace ++ preActions ms, c.R, mapSet c.Data "route".toList route, c.V, c.server,
          ms.length, ms.map (fun p => around p.1 p.2) ++ [MHandler.defaultHandler]⟩ =
      .ok ⟨c.trace ++ preActions ms ++ evH, c.R, mapSet c.Data "route".toList route, c.V,
          c.server, ms.length,
          ms.map (fun p => around p.1 p.2) ++ [MHandler.defaultHandler]⟩) :
    ∀ fuel, ms.length + fuelH ≤ fuel →
      makeHandlerChain sys fuel c route =
        .ok ⟨c.trace ++ preActions ms ++ evH ++ postActions ms, c.R,
          mapSet c.Data "route".toList route, c.V, c.server, 0,
          ms.map (fun p => around p.1 p.2) ++ [MHandler.defaultHandler]⟩ := by
  intro fuel hfuel
  have hK : call sys fuelH MHandler.defaultHandler
      ⟨c.trace ++ preActions ms, c.R, mapSet c.Data "route".toList route, c.V, c.server,
        ([] : List MHandler).length + ms.length,
        ms.map (fun p => around p.1 p.2) ++ [MHandler.defaultHandler]⟩ =
      .ok ⟨c.trace ++ preActions ms ++ evH, c.R, mapSet c.Data "route".toList route, c.V,
        c.server, ([] : List MHandler).length + ms.length,
        ms.map (fun p => around p.1 p.2) ++ [MHandler.defaultHandler]⟩ := by
    simpa using hH
  obtain ⟨h, hget, hrun⟩ := chain_run sys c.R (mapSet c.Data "route".toList route) c.V c.server
    MHandler.defaultHandler [] evH fuelH ms [] c.trace
    (ms.map (fun p => around p.1 p.2) ++ [MHandler.defaultHandler]) (by simp) hK
  simp only [List.length_nil] at hget hrun
  unfold makeHandlerChain
  simp only [hh, hmw, h0, List.nil_append, hget]
  exact call_mono sys _ fuel hfuel h _ _ hrun

/-- C7. Chain short-circuit: when the middleware `M1..M(k-1)` call `Next` once
and `Mk` returns after the actions `evK` without calling `Next`, then whatever
is registered after `Mk`, and whatever the terminal dispatcher would do, the
chain started by `makeHandlerChain` returns having performed exactly
pre(M1), ..., pre(M(k-1)), `evK`, post(M(k-1)), ..., post(M1); with `k = 1`
only the actions of `M1` are performed. -/
theorem makeHandlerChain_short_circuit (sys : Sys) (c : MContext) (route : Str)
    (ms : List (List Event × List Event)) (evK : List Event) (rest : List MHandler)
    (hh : c.handler = []) (h0 : c.handlerChain = 0)
    (hmw : c.server.middleware = ms.map (fun p => around p.1 p.2) ++ plain evK :: rest) :
    ∀ fuel, ms.length + 1 ≤ fuel →
      makeHandlerChain sys fuel c route =
        .ok ⟨c.trace ++ preActions ms ++ evK ++ postActions ms, c.R,
          mapSet c.Data "route".toList route, c.V, c.server, 0,
          (ms.map (fun p => around p.1 p.2) ++ plain evK :: rest) ++
            [MHandler.defaultHandler]⟩ := by
  intro fuel hfuel
  obtain ⟨h, hget, hrun⟩ := chain_run sys c.R (mapSet c.Data "route".toList route) c.V c.server
    (plain evK) (rest ++ [MHandler.defaultHandler]) evK 1 ms [] c.trace
    ((ms.map (fun p => around p.1 p.2) ++ plain evK :: rest) ++ [MHandler.defaultHandler])
    (by simp) (by rw [call_plain]; rfl)
  simp only [List.length_nil] at hget hrun
  unfold makeHandlerChain
  simp only [hh, hmw, h0, List.nil_append, hget]
  exact call_mono sys _ fuel hfuel h _ _ hrun

/-- Two middleware around the handler of the route `/`. -/
theorem makeHandlerChain_order_witness :
    makeHandlerChain sampleSys 4 (freshContext sampleServer (sampleGet "/".toList)) "/".toList =
      .ok ⟨[say "pre1", say "pre2", say "H", say "post2", say "post1"], sampleGet "/".toList,
        [("route".toList, "/".toList)], [], sampleServer, 0,
        [around [say "pre1"] [say "post1"], around [say "pre2"] [say "post2"],
          MHandler.defaultHandler]⟩ :=
  makeHandlerChain_order sampleSys (freshContext sampleServer (sampleGet "/".toList)) "/".toList
    [([say "pre1"], [say "post1"]), ([say "pre2"], [say "post2"])] [say "H"] 2 rfl rfl rfl rfl
    4 (by decide)

/-- The second of three middleware does not call `Next`. -/
theorem makeHandlerChain_short_circuit_witness :
    makeHandlerChain sampleSys 2 (freshContext sampleHalting (sampleGet "/".toList)) "/".toList =
      .ok ⟨[say "pre1", say "stop", say "post1"], sampleGet "/".toList,
        [("route".toList, "/".toList)], [], sampleHalting, 0,
        [around [say "pre1"] [say "post1"], plain [say "stop"],
          around [say "pre3"] [say "post3"], MHandler.defaultHandler]⟩ :=
  makeHandlerChain_short_circuit sampleSys (freshContext sampleHalting (sampleGet "/".toList))
    "/".toList [([say "pre1"], [say "post1"])] [say "stop"] [around [say "pre3"] [say "post3"]]
    rfl rfl rfl 2 (by decide)

/-! ## Fallback order of the terminal dispatcher -/

/-- C3. Fallback order of `defaultHandler` for a GET request with the
unmatched route `""`, a directory static root and an asset static root (with
its asset reader) configured: the directory lookup comes first and, when it
succeeds, nothing else runs; the asset lookup is made only after the directory
lookup failed; the NotFound handler is called exactly when both failed; and the
default `notFound` writes the content type, status 404 and the body
`Error 404 : Page Not Found!!!`. -/
theorem defaultHandler_fallback (sys : Sys) (c : MContext) (asset : Str → Option Str)
    (fuel : Nat) (hm : c.R.Method = "GET".toList)
    (hr : mapGet c.Data "route".toList = some [])
    (hs : c.server.static ≠ []) (hb : c.server.staticBindata ≠ [])
    (ha : c.server.asset = some asset) :
    call sys (fuel + 1) MHandler.defaultHandler c =
      (if sys.canOpen (staticFile sys c) then
        .ok (c.emits [.osOpen (staticFile sys c), .serveFile (staticFile sys c)])
      else if sys.canOpen (staticIndex sys c) then
        .ok (c.emits [.osOpen (staticFile sys c), .osOpen (staticIndex sys c),
          .serveFile (staticIndex sys c)])
      else
        match asset (assetFile sys c) with
        | some data =>
          .ok (c.emits ([.osOpen (staticFile sys c), .osOpen (staticIndex sys c),
            .asset (assetFile sys c)] ++ assetResponse sys (assetFile sys c) data))
        | none =>
          match asset (sys.clean (assetIndex sys c)) with
          | some data =>
            .ok (c.emits ([.osOpen (staticFile sys c), .osOpen (staticIndex sys c),
              .asset (assetFile sys c), .asset (sys.clean (assetIndex sys c))] ++
              assetResponse sys (assetIndex sys c) data))
          | none =>
            call sys fuel c.server.NotFound
              (c.emits [.osOpen (staticFile sys c), .osOpen (staticIndex sys c),
                .asset (assetFile sys c), .asset (sys.clean (assetIndex sys c))])) ∧
    ∀ c1 : MContext, call sys (fuel + 1) notFound c1 =
      .ok (c1.emits [.setHeader "Content-Type".toList "text/plain".toList, .writeHeader 404,
        .write "Error 404 : Page Not Found!!!".toList]) := by
  constructor
  · simp only [call, defaultHandler, hr, hm, hs, hb, ha, serveStatic, serveStaticBindata,
      staticFile, staticIndex, assetFile, assetIndex, assetResponse, writeAsset,
      MContext.emit, MContext.emits]
    by_cases h1 : sys.canOpen (sys.join c.server.static c.R.Path) = true
    · simp [h1, hs, hb]
    · by_cases h2 : sys.canOpen
          (sys.join (sys.join c.server.static c.R.Path) "index.html".toList) = true
      · simp at h2
        simp [h1, h2, hs, hb]
      · cases h3 : asset (sys.join c.server.staticBindata c.R.Path) with
        | some data =>
          simp at h2
          simp [h1, h2, h3, hs, hb]
        | none =>
          cases h4 : asset (sys.clean
              (sys.join (sys.join c.server.staticBindata c.R.Path) "index.html".toList)) with
          | some data =>
            simp at h2 h4
            simp [h1, h2, h3, h4, hs, hb]
          | none =>
            simp at h2 h4
            simp [h1, h2, h3, h4, hs, hb]
  · intro c1
    exact call_plain sys fuel [.setHeader "Content-Type".toList "text/plain".toList,
      .writeHeader 404, .write "Error 404 : Page Not Found!!!".toList] c1

/-- Both lookups fail and the default NotFound handler answers. -/
theorem defaultHandler_fallback_witness :
    call sampleSys 2 MHandler.defaultHandler
        ⟨[], sampleGet "/x".toList, [("route".toList, [])], [], sampleStatic, 0,
          [MHandler.defaultHandler]⟩ =
      .ok ⟨[.osOpen "www/x".toList, .osOpen "www/xindex.html".toList, .asset "assets/x".toList,
          .asset "assets/xindex.html".toList,
          .setHeader "Content-Type".toList "text/plain".toList, .writeHeader 404,
          .write "Error 404 : Page Not Found!!!".toList],
        sampleGet "/x".toList, [("route".toList, [])], [], sampleStatic, 0,
        [MHandler.defaultHandler]⟩ :=
  (defaultHandler_fallback sampleSys
    ⟨[], sampleGet "/x".toList, [("route".toList, [])], [], sampleStatic, 0,
      [MHandler.defaultHandler]⟩ (fun _ => none) 1 rfl rfl (by decide) (by decide) rfl).1

/-! ## Client address -/

/-- What `trimSpace` removes is white space on both sides, and what it keeps
neither starts nor ends with white space. -/
theorem trimSpace_spec (s : Str) :
    (∃ l r : Str, s = l ++ trimSpace s ++ r ∧ (∀ ch ∈ l, isSpace ch = true) ∧
      (∀ ch ∈ r, isSpace ch = true)) ∧
    (∀ ch, (trimSpace s).head? = some ch → isSpace ch = false) ∧
    (∀ ch, (trimSpace s).getLast? = some ch → isSpace ch = false) := by
  have hd : (s.dropWhile isSpace).reverse =
      (s.dropWhile isSpace).reverse.takeWhile isSpace ++
        (s.dropWhile isSpace).reverse.dropWhile isSpace :=
    (List.takeWhile_append_dropWhile isSpace _).symm
  have hd1 : s.dropWhile isSpace =
      trimSpace s ++ ((s.dropWhile isSpace).reverse.takeWhile isSpace).reverse := by
    have := congrArg List.reverse hd
    rw [List.reverse_reverse, List.reverse_append] at this
    exact this
  refine ⟨⟨s.takeWhile isSpace, ((s.dropWhile isSpace).reverse.takeWhile isSpace).reverse,
    ?_, ?_, ?_⟩, ?_, ?_⟩
  · rw [List.append_assoc, ← hd1, List.takeWhile_append_dropWhile]
  · intro ch hch
    exact List.mem_takeWhile_imp hch
  · intro ch hch
    exact List.mem_takeWhile_imp (List.mem_reverse.mp hch)
  · intro ch hch
    have h1 : (s.dropWhile isSpace).head? = some ch := by
      rw [hd1, List.head?_append, hch]
      rfl
    have h2 := List.head?_dropWhile_not isSpace s
    rw [h1] at h2
    simpa using h2
  · intro ch hch
    unfold trimSpace at hch
    rw [List.getLast?_reverse] at hch
    have h2 := List.head?_dropWhile_not isSpace (s.dropWhile isSpace).reverse
    rw [hch] at h2
    simpa using h2

/-- C9. Client-address resolution precedence of `RemoteAddr`: a non-empty
`X-Forwarded-For` value is returned with the surrounding white space trimmed,
whatever `X-Real-IP` and the connection address are; with `X-Forwarded-For`
empty, a non-empty `X-Real-IP` value is returned trimmed; only with both empty
is the result taken from the trimmed connection address: its host part when
`net.SplitHostPort` succeeds on it, the trimmed address itself otherwise. -/
theorem RemoteAddr_precedence (sys : Sys) (c : MContext) :
    (c.R.Header "X-Forwarded-For".toList ≠ [] →
      RemoteAddr sys c = trimSpace (c.R.Header "X-Forwarded-For".toList) ∧
      (∃ l r : Str, c.R.Header "X-Forwarded-For".toList = l ++ RemoteAddr sys c ++ r ∧
        (∀ ch ∈ l, isSpace ch = true) ∧ (∀ ch ∈ r, isSpace ch = true)) ∧
      (∀ ch, (RemoteAddr sys c).head? = some ch → isSpace ch = false) ∧
      (∀ ch, (RemoteAddr sys c).getLast? = some ch → isSpace ch = false)) ∧
    (c.R.Header "X-Forwarded-For".toList = [] →
      c.R.Header "X-Real-IP".toList ≠ [] →
      RemoteAddr sys c = trimSpace (c.R.Header "X-Real-IP".toList)) ∧
    (c.R.Header "X-Forwarded-For".toList = [] →
      c.R.Header "X-Real-IP".toList = [] →
      RemoteAddr sys c =
        if trimSpace c.R.RemoteAddr = [] then []
        else
          match sys.splitHostPort (trimSpace c.R.RemoteAddr) with
          | some (ip, _) => ip
          | none => trimSpace c.R.RemoteAddr) := by
  refine ⟨?_, ?_, ?_⟩
  · intro h
    have e : RemoteAddr sys c = trimSpace (c.R.Header "X-Forwarded-For".toList) := by
      simp only [RemoteAddr]
      rw [if_pos h]
    rw [e]
    exact ⟨rfl, trimSpace_spec _⟩
  · intro h1 h2
    simp only [RemoteAddr]
    rw [if_neg (not_not.mpr h1), if_pos h2]
  · intro h1 h2
    simp only [RemoteAddr]
    rw [if_neg (not_not.mpr h1), if_neg (not_not.mpr h2)]
    by_cases h3 : trimSpace c.R.RemoteAddr = []
    · rw [if_neg (not_not.mpr h3), if_pos h3, h3]
    · rw [if_pos h3, if_neg h3]

/-- A request with both forwarding headers and a connection address resolves
to the trimmed `X-Forwarded-For` value. -/
theorem RemoteAddr_precedence_witness :
    RemoteAddr sampleSys (freshContext New sampleForwarded) = "203.0.113.7".toList :=
  ((RemoteAddr_precedence sampleSys (freshContext New sampleForwarded)).1 (by decide)).1

/-! ## The walk against the matching rule of the specification -/

/-- When no empty pattern segment faces a non-empty request segment, the walk
does not panic and its verdict is the matching rule of the specification. -/
theorem walk_eq_segsMatch :
    ∀ (path kpath : List Str) (V : List (Str × Str)),
      kpath.length = path.length →
      (∀ q ∈ List.zip path kpath, q.2 = [] → q.1 = []) →
      ∃ V1, walk path kpath V = some (segsMatch path kpath, V1) := by
  intro path
  induction path with
  | nil =>
    intro kpath V _ _
    exact ⟨V, by simp [walk, segsMatch]⟩
  | cons p ps ih =>
    intro kpath V hlen hne
    cases kpath with
    | nil => simp at hlen
    | cons k ks =>
      have hlen1 : ks.length = ps.length := by simpa using hlen
      have hne1 : ∀ q ∈ List.zip ps ks, q.2 = [] → q.1 = [] := fun q hq =>
        hne q (by simp [List.zip_cons_cons, hq])
      have hpk : k = [] → p = [] := fun hk => hne (p, k) (by simp [List.zip_cons_cons]) hk
      have hall : ∀ b : Bool, segMatches p k = b →
          segsMatch (p :: ps) (k :: ks) = (b && segsMatch ps ks) := fun b hb => by
        simp [segsMatch, List.zip_cons_cons, hb]
      simp only [walk]
      split
      · rename_i h0
        obtain ⟨V1, hV1⟩ := ih ks V hlen1 hne1
        refine ⟨V1, ?_⟩
        rw [hV1, hall true (by simp [segMatches, h0.1, h0.2])]
        simp
      · rename_i h0
        cases k with
        | nil => exact absurd ⟨hpk rfl, rfl⟩ h0
        | cons ch name =>
          simp only
          split
          · rename_i hc
            obtain ⟨V1, hV1⟩ := ih ks (mapSet V name p) hlen1 hne1
            refine ⟨V1, ?_⟩
            rw [hV1, hall true (by simp [segMatches, hc])]
            simp
          · rename_i hc
            split
            · rename_i he
              obtain ⟨V1, hV1⟩ := ih ks V hlen1 hne1
              refine ⟨V1, ?_⟩
              rw [hV1, hall true (by simp [segMatches, he])]
              simp
            · rename_i he
              refine ⟨V, ?_⟩
              rw [hall false (by
                simp [segMatches, hc]
                exact fun e => he e.symm)]
              simp

/-- The single-pattern case of `matchRoute` against the specification: with
equal segment counts and no empty pattern segment facing a non-empty request
segment, the pattern is returned when every segment pairs, and the unmatched
value otherwise. -/
theorem matchRoute_single (P : Str) (h : MHandler) (c : MContext)
    (hlen : (normPath (split P)).length = (normPath (split c.R.Path)).length)
    (hne : ∀ q ∈ List.zip (normPath (split c.R.Path)) (normPath (split P)), q.2 = [] → q.1 = []) :
    ∃ c1, matchRoute [(P, h)] c =
      some (if segsMatch (normPath (split c.R.Path)) (normPath (split P)) then P else [], c1) := by
  obtain ⟨V1, hV1⟩ := walk_eq_segsMatch _ _ [] hlen hne
  unfold matchRoute
  simp only [List.map, matchLoop, hlen, if_true, hV1]
  cases segsMatch (normPath (split c.R.Path)) (normPath (split P)) with
  | true => exact ⟨_, rfl⟩
  | false => exact ⟨_, rfl⟩

/-! ## Trailing separator -/

theorem split_ne_nil (s : Str) : split s ≠ [] := by
  cases s with
  | nil => simp [split]
  | cons c cs =>
    simp only [split]
    split
    · simp
    · split <;> simp

theorem split_append_slash (s : Str) : split (s ++ ['/']) = split s ++ [[]] := by
  induction s with
  | nil => decide
  | cons c cs ih =>
    have e : split (c :: (cs ++ ['/'])) =
        if c = '/' then [] :: split (cs ++ ['/'])
        else
          match split (cs ++ ['/']) with
          | [] => [[c]]
          | s :: ss => (c :: s) :: ss := by
      rw [split]
    have e1 : split (c :: cs) =
        if c = '/' then [] :: split cs
        else
          match split cs with
          | [] => [[c]]
          | s :: ss => (c :: s) :: ss := by
      rw [split]
    rw [List.cons_append, e, e1, ih]
    split
    · rfl
    · cases h : split cs with
      | nil => exact absurd h (split_ne_nil cs)
      | cons s0 ss => rfl

theorem split_getLast (s : Str) (hs : s ≠ []) (h : s.getLast? ≠ some '/') :
    (split s).getLast? ≠ some [] := by
  induction s with
  | nil => exact absurd rfl hs
  | cons c cs ih =>
    cases cs with
    | nil =>
      have hc : c ≠ '/' := fun e => h (by simp [e])
      simp [split, hc]
    | cons d ds =>
      have h1 : (d :: ds).getLast? ≠ some '/' := by
        simpa [List.getLast?_cons_cons] using h
      have ih1 := ih (by simp) h1
      cases hsp : split (d :: ds) with
      | nil => exact absurd hsp (split_ne_nil _)
      | cons s0 ss =>
        rw [hsp] at ih1
        have hsplit : split (c :: d :: ds) =
            if c = '/' then [] :: s0 :: ss else (c :: s0) :: ss := by
          rw [split, hsp]
        rw [hsplit]
        split
        · simpa [List.getLast?_cons_cons] using ih1
        · cases ss with
          | nil => simp
          | cons s1 ss1 =>
            simpa [List.getLast?_cons_cons] using ih1

/-- The segments of `normPath`: at most one trailing empty segment is dropped,
and a non-empty segment list stays non-empty. -/
theorem normPath_facts (p : List Str) :
    (normPath p = p ∨ p = normPath p ++ [[]]) ∧ (p ≠ [] → normPath p ≠ []) ∧
      p.length ≤ (normPath p).length + 1 := by
  unfold normPath
  split
  · rename_i hlen
    split
    · rename_i hlast
      have hp : p = p.dropLast ++ [[]] := by
        have := List.dropLast_append_getLast? [] hlast
        exact this.symm
      refine ⟨Or.inr hp, ?_, ?_⟩
      · intro _ hd
        rw [hd] at hp
        rw [hp] at hlen
        simp at hlen
      · simp
        omega
    · exact ⟨Or.inl rfl, id, by omega⟩
  · exact ⟨Or.inl rfl, id, by omega⟩

/-- A path that does not end with the separator has the same normalised
segments with and without a trailing separator. -/
theorem normPath_split_trailing (s : Str) (h : s.getLast? ≠ some '/') :
    normPath (split (s ++ ['/'])) = normPath (split s) := by
  by_cases hs : s = []
  · subst hs
    decide
  · have hlast := split_getLast s hs h
    rw [split_append_slash]
    have h1 : normPath (split s) = split s := by
      simp only [normPath, hlast, if_false, ite_self]
    have hpos : 0 < (split s).length := List.length_pos.mpr (split_ne_nil s)
    rw [h1]
    unfold normPath
    rw [if_pos (by simp; omega), if_pos (by simp)]
    simp

/-- What a caller observes of `matchRoute` on a table with one non-empty
pattern depends on the normalised segments only. -/
theorem observed_single (K : Str) (hK : K ≠ []) (h : MHandler) (c : MContext) :
    observed (matchRoute [(K, h)] c) =
      if (normPath (split K)).length = (normPath (split c.R.Path)).length then
        walk (normPath (split c.R.Path)) (normPath (split K)) []
      else some (false, []) := by
  unfold observed matchRoute
  simp only [List.map, matchLoop]
  split
  · cases hw : walk (normPath (split c.R.Path)) (normPath (split K)) [] with
    | none => rfl
    | some r =>
      obtain ⟨b, V1⟩ := r
      cases b with
      | true => simp [hK]
      | false => simp
  · simp

/-- Trailing-separator equivalence for a non-empty pattern: with `P` and `R`
not ending with the separator, what a caller observes of `matchRoute` is the
same for `P` or `P/` registered and `R` or `R/` requested. -/
theorem matchRoute_trailing_separator (P R : Str) (hP : P ≠ [])
    (hPs : P.getLast? ≠ some '/') (hRs : R.getLast? ≠ some '/') (h : MHandler)
    (c c1 : MContext) (hc : c.R.Path = R) (hc1 : c1.R.Path = R ++ ['/']) :
    observed (matchRoute [(P ++ ['/'], h)] c) = observed (matchRoute [(P, h)] c) ∧
      observed (matchRoute [(P, h)] c1) = observed (matchRoute [(P, h)] c) ∧
      observed (matchRoute [(P ++ ['/'], h)] c1) = observed (matchRoute [(P, h)] c) := by
  have hP1 : P ++ ['/'] ≠ [] := by simp
  simp only [observed_single _ hP, observed_single _ hP1, hc, hc1,
    normPath_split_trailing P hPs, normPath_split_trailing R hRs, and_self]

/-! ## What holds of the parameter map and of a returned route -/

/-- The map `V` held by the context before the call plays no part in the
result of `matchRoute`. -/
theorem matchRoute_discards_V (route : List (Str × MHandler)) (c : MContext)
    (V0 : List (Str × Str)) : matchRoute route { c with V := V0 } = matchRoute route c :=
  rfl

/-- A walk over a candidate without parameter segment leaves the map as it
was. -/
theorem walk_no_param :
    ∀ (path kpath : List Str) (V V1 : List (Str × Str)) (b : Bool),
      (∀ k ∈ kpath, k.head? ≠ some ':') →
      walk path kpath V = some (b, V1) → V1 = V := by
  intro path
  induction path with
  | nil =>
    intro kpath V V1 b _ h
    simp [walk] at h
    exact h.2.symm
  | cons p ps ih =>
    intro kpath V V1 b hk h
    cases kpath with
    | nil => simp [walk] at h
    | cons k ks =>
      have hks : ∀ k1 ∈ ks, k1.head? ≠ some ':' := fun k1 h1 => hk k1 (by simp [h1])
      have hk0 : k.head? ≠ some ':' := hk k (by simp)
      simp only [walk] at h
      split at h
      · exact ih ks V V1 b hks h
      · cases k with
        | nil => simp at h
        | cons ch name =>
          have hch : ch ≠ ':' := fun e => hk0 (by simp [e])
          simp only [hch, if_false] at h
          split at h
          · exact ih ks V V1 b hks h
          · simp at h
            exact h.2.symm

/-- On a route table without parameter segments the loop of `matchRoute` leaves
the map as it was, that is, empty. -/
theorem matchLoop_no_param (path : List Str) :
    ∀ (ks : List Str) (V V1 : List (Str × Str)) (P : Str),
      (∀ k ∈ ks, ∀ s ∈ normPath (split k), s.head? ≠ some ':') →
      matchLoop path ks V = some (P, V1) → V1 = V := by
  intro ks
  induction ks with
  | nil =>
    intro V V1 P _ h
    simp [matchLoop] at h
    exact h.2.symm
  | cons k ks ih =>
    intro V V1 P hk h
    have hks : ∀ k1 ∈ ks, ∀ s ∈ normPath (split k1), s.head? ≠ some ':' :=
      fun k1 h1 => hk k1 (by simp [h1])
    rw [matchLoop] at h
    split at h
    · split at h
      · simp at h
      · rename_i W hw
        simp at h
        rw [← h.2]
        exact walk_no_param _ _ V W true (hk k (by simp)) hw
      · rename_i W hw
        rw [ih W V1 P hks h]
        exact walk_no_param _ _ V W false (hk k (by simp)) hw
    · exact ih V V1 P hks h

/-- A non-empty route handed to the dispatcher of a GET request is looked up
in the GET table and its handler is called; nothing else runs. -/
theorem defaultHandler_route (sys : Sys) (fuel : Nat) (c : MContext) (route : Str)
    (hm : c.R.Method = "GET".toList) (hr : mapGet c.Data "route".toList = some route)
    (hne : route ≠ []) :
    call sys (fuel + 1) MHandler.defaultHandler c =
      match mapGet c.server.get route with
      | none => .panic
      | some h => call sys fuel h c := by
  simp only [call, defaultHandler, hr, hm, hne, if_true, ne_eq, not_false_eq_true]

/-! ## Inputs on which the source departs from its specification -/

/-- C1 at the pattern `/a//b` and the request path `/a/x/b`: both have four
segments, the pattern segment at index 2 is the literal `""` and differs from
the request segment `x`, yet `matchRoute` does not return the unmatched
result: evaluating `kpath[kk][0]` on the empty segment panics. -/
theorem matchRoute_literal_mismatch_panics :
    (normPath (split "/a//b".toList)).length = (normPath (split "/a/x/b".toList)).length ∧
      (normPath (split "/a//b".toList))[2]? = some [] ∧
      (normPath (split "/a/x/b".toList))[2]? = some "x".toList ∧
      matchRoute [("/a//b".toList, plain [say "H"])]
        (freshContext New (sampleGet "/a/x/b".toList)) = none :=
  ⟨by decide, by decide, by decide, rfl⟩

/-- C10 at the pattern `//` and the request path `/x`: the first-character
test is applied to the empty pattern segment at index 1 and `matchRoute`
panics instead of skipping the candidate. -/
theorem matchRoute_empty_segment_panics :
    walk (normPath (split "/x".toList)) (normPath (split "//".toList)) [] = none ∧
      matchRoute [("//".toList, plain [say "H"])]
        (freshContext New (sampleGet "/x".toList)) = none :=
  ⟨by decide, rfl⟩

/-- C4 at the route table with the single pattern `""` and the GET request
for `/`: the walk of the pattern completes, `matchRoute` returns the key `""`,
and the dispatcher takes it for the unmatched value: the registered handler
is not called and the default NotFound handler answers 404. -/
theorem ServeHTTP_root_pattern_not_found :
    walk (normPath (split "/".toList)) (normPath (split "".toList)) [] = some (true, []) ∧
      ∀ fuel, ServeHTTP sampleSys (fuel + 2) (New.Get [] (plain [say "H"]))
          (sampleGet "/".toList) =
        .ok ⟨[.setHeader "Content-Type".toList "text/plain".toList, .writeHeader 404,
            .write "Error 404 : Page Not Found!!!".toList],
          sampleGet "/".toList, [("route".toList, [])], [], New.Get [] (plain [say "H"]), 0,
          [MHandler.defaultHandler]⟩ :=
  ⟨by decide, fun _ => rfl⟩

/-- C6 at the pattern `""` and the request path `/`: registered as `""` the
pattern makes `matchRoute` return `""`, the value it also returns for an empty
route table, while registered as `/` it makes `matchRoute` return `/`. -/
theorem matchRoute_root_trailing_separator :
    (matchRoute [([], plain [say "H"])] (freshContext New (sampleGet "/".toList))).map
        Prod.fst = some [] ∧
      (matchRoute [] (freshContext New (sampleGet "/".toList))).map Prod.fst = some [] ∧
      (matchRoute [("/".toList, plain [say "H"])]
        (freshContext New (sampleGet "/".toList))).map Prod.fst = some "/".toList :=
  ⟨by decide, by decide, by decide⟩

/-- C8 at the pattern `/:id/x` and the request path `/5/y`: the candidate is
abandoned at its last segment, `matchRoute` returns the unmatched result, and
the binding `id = 5` written before the mismatch stays in `V`. -/
theorem matchRoute_unmatched_keeps_binding :
    matchRoute [("/:id/x".toList, plain [say "H"])]
        (freshContext New (sampleGet "/5/y".toList)) =
      some ([], { freshContext New (sampleGet "/5/y".toList) with
        V := [("id".toList, "5".toList)] }) :=
  rfl

end Mwebserv
